import Mathlib

/- Shallow embedding of the contract-risk-bot document analysis pipeline:
   clause segmentation (src/nlp/preprocess.py), contract-type
   classification (src/nlp/contract_type.py), deontic extraction
   (src/nlp/deontic.py), clause selection (src/risk/selector.py) and risk
   aggregation (src/risk/aggregator.py), together with proofs of the
   specified properties.  Python strings are modelled as `List Char`,
   Python numbers as `ℕ`/`ℚ`. -/

namespace ContractRiskBot

/-! ## Character classes (Python `re` character classes as used by the sources).
    Non-ASCII characters are treated as word characters, matching Python's
    unicode-aware `\w` on the Devanagari text these contracts contain. -/

def isWs (c : Char) : Bool :=
  c == ' ' || c == '\t' || c == '\n' || c == '\r' || c == '\x0b' || c == '\x0c'

def isWordCh (c : Char) : Bool :=
  c.isAlphanum || c == '_' || decide (128 ≤ c.toNat)

def lowerL (l : List Char) : List Char := l.map Char.toLower

def slice (t : List Char) (s e : ℕ) : List Char := (t.drop s).take (e - s)

/-- Python `str.strip()` (whitespace from both ends). -/
def pyStrip (l : List Char) : List Char :=
  ((l.dropWhile isWs).reverse.dropWhile isWs).reverse

/-! ## `normalize_text` (src/nlp/preprocess.py lines 59-63) -/

/-- `text.replace("\r\n", "\n")`. -/
def replace_crlf : List Char → List Char
  | [] => []
  | '\r' :: '\n' :: rest => '\n' :: replace_crlf rest
  | c :: rest => c :: replace_crlf rest

/-- `text.replace("\r", "\n")`. -/
def replace_cr (l : List Char) : List Char :=
  l.map (fun c => if c == '\r' then '\n' else c)

def isST (c : Char) : Bool := c == ' ' || c == '\t'

/-- `re.sub(r"[ \t]+", " ", text)` (fuel-driven; called with enough fuel). -/
def collapse_spaces_aux : ℕ → List Char → List Char
  | 0, l => l
  | _, [] => []
  | fuel + 1, c :: rest =>
    if isST c then ' ' :: collapse_spaces_aux fuel (rest.dropWhile isST)
    else c :: collapse_spaces_aux fuel rest

def collapse_spaces (l : List Char) : List Char := collapse_spaces_aux l.length l

def isNL (c : Char) : Bool := c == '\n'

/-- `re.sub(r"\n{3,}", "\n\n", text)` (fuel-driven; called with enough fuel). -/
def collapse_newlines_aux : ℕ → List Char → List Char
  | 0, l => l
  | _, [] => []
  | fuel + 1, c :: rest =>
    if c == '\n' ∧ 2 ≤ (rest.takeWhile isNL).length then
      '\n' :: '\n' :: collapse_newlines_aux fuel (rest.dropWhile isNL)
    else c :: collapse_newlines_aux fuel rest

def collapse_newlines (l : List Char) : List Char := collapse_newlines_aux l.length l

/-- `normalize_text` (src/nlp/preprocess.py). -/
def normalize_text (t : List Char) : List Char :=
  pyStrip (collapse_newlines (collapse_spaces (replace_cr (replace_crlf t))))

/-! ## Clause-start marker matching (src/nlp/preprocess.py `_CLAUSE_SPLIT_PATTERNS`).

    Each of the four patterns is hand-compiled to a matcher
    `List Char → ℕ → Option ℕ` that, given the text and the position of a
    `(?m)^` anchor, returns the end offset of the leftmost-greedy match
    there (faithfully reproducing the backtracking order of Python `re`),
    or `none`. -/

def chAt (t : List Char) (i : ℕ) : Option Char := t[i]?

/-- Length of the maximal whitespace run starting at `i` (`\s*`). -/
def wsLen (t : List Char) (i : ℕ) : ℕ := ((t.drop i).takeWhile isWs).length

/-- Length of the maximal digit run starting at `i` (`\d*`). -/
def digLen (t : List Char) (i : ℕ) : ℕ := ((t.drop i).takeWhile Char.isDigit).length

def atLineStart (t : List Char) (p : ℕ) : Bool :=
  p == 0 || chAt t (p - 1) == some '\n'

/-- `\s*[.)-]\s+` starting at `v`; returns the end of the `\s+` run.
    (`\s*` and `\s+` are forced to their maximal runs because the `[.)-]`
    separator characters are not whitespace.) -/
def sepWsEnd (t : List Char) (v : ℕ) : Option ℕ :=
  let w := v + wsLen t v
  match chAt t w with
  | some c =>
    if c == '.' || c == ')' || c == '-' then
      let s := wsLen t (w + 1)
      if 0 < s then some (w + 1 + s) else none
    else none
  | none => none

/-- Greedy chain of `\.\d+` repetitions starting at `v`: the lengths of the
    successive repetitions. -/
def dotDigitChain (t : List Char) : ℕ → ℕ → List ℕ
  | _, 0 => []
  | v, fuel + 1 =>
    if chAt t v = some '.' ∧ 0 < digLen t (v + 1) then
      let r := 1 + digLen t (v + 1)
      r :: dotDigitChain t (v + r) fuel
    else []

/-- Backtrack over the number of `(\.\d+)` repetitions, longest first, then
    try the `\s*[.)-]\s+` tail at the resulting position. -/
def tryCounts (t : List Char) : ℕ → List ℕ → Option ℕ
  | base, [] => sepWsEnd t base
  | base, r :: rest => (tryCounts t (base + r) rest).orElse (fun _ => sepWsEnd t base)

/-- Pattern `(?m)^\s*(\d+(\.\d+){0,4})\s*[.)-]\s+` at anchor `p`. -/
def match_numeric (t : List Char) (p : ℕ) : Option ℕ :=
  let u := p + wsLen t p
  let d := digLen t u
  if d = 0 then none
  else tryCounts t (u + d) ((dotDigitChain t (u + d) (t.length + 1)).take 4)

/-- Pattern `(?m)^\s*([a-zA-Z])\s*[.)-]\s+` at anchor `p`. -/
def match_letter (t : List Char) (p : ℕ) : Option ℕ :=
  let u := p + wsLen t p
  match chAt t u with
  | some c => if c.isAlpha then sepWsEnd t (u + 1) else none
  | none => none

/-- `$` in multiline mode: end of text or immediately before a newline. -/
def lineEndAt (t : List Char) (i : ℕ) : Bool :=
  i == t.length || chAt t i == some '\n'

/-- Largest `b ≤ fuel` such that `$` matches at `p + b` (greedy `\s*$`);
    called with `fuel = wsLen t p`. -/
def bestWsAux (t : List Char) (p : ℕ) : ℕ → Option ℕ
  | 0 => if lineEndAt t p then some p else none
  | b + 1 => if lineEndAt t (p + b + 1) then some (p + b + 1) else bestWsAux t p b

/-- `[:\-]\s*$` (the branch of `[:\-]?` that consumes a character). -/
def tailAfterColon (t : List Char) (p1 : ℕ) : Option ℕ :=
  match chAt t p1 with
  | some c =>
    if c == ':' || c == '-' then bestWsAux t (p1 + 1) (wsLen t (p1 + 1)) else none
  | none => none

/-- `[:\-]?\s*$` at `p1`, colon branch first (greedy `?`). -/
def tryTailAt (t : List Char) (p1 : ℕ) : Option ℕ :=
  (tailAfterColon t p1).orElse (fun _ => bestWsAux t p1 (wsLen t p1))

/-- `\s*[:\-]?\s*$` with the leading `\s*` backtracking from `a = fuel`
    (maximal run) down to `0`. -/
def tailDollarAux (t : List Char) (v : ℕ) : ℕ → Option ℕ
  | 0 => tryTailAt t v
  | a + 1 => (tryTailAt t (v + a + 1)).orElse (fun _ => tailDollarAux t v a)

def tailDollar (t : List Char) (v : ℕ) : Option ℕ :=
  tailDollarAux t v (wsLen t v)

def wordAt (t : List Char) (i : ℕ) (w : List Char) : Bool :=
  w.isPrefixOf (t.drop i)

/-- Heading patterns `(?m)^\s*(W1|W2|...)\s*[:\-]?\s*$`: alternatives tried
    in source order, each followed by the backtracking tail. -/
def matchWords (words : List (List Char)) (t : List Char) (p : ℕ) : Option ℕ :=
  let u := p + wsLen t p
  words.findSome? (fun w => if wordAt t u w then tailDollar t (u + w.length) else none)

def ENG_HEADINGS : List (List Char) :=
  ["TERM", "TERMINATION", "PAYMENT", "CONFIDENTIALITY", "LIABILITY",
   "INDEMNITY", "GOVERNING LAW", "JURISDICTION", "ARBITRATION"].map String.toList

def HI_HEADINGS : List (List Char) :=
  ["अवधि", "समाप्ति", "भुगतान", "गोपनीयता", "दायित्व",
   "क्षतिपूर्ति", "शासन कानून", "क्षेत्राधिकार", "मध्यस्थता"].map String.toList

/-- `re.finditer` over one pattern: scan left to right, anchor `^` at line
    starts, resume after the end of each match; collect the match starts. -/
def scanAux (t : List Char) (matcher : List Char → ℕ → Option ℕ) :
    ℕ → ℕ → List ℕ
  | 0, _ => []
  | fuel + 1, pos =>
    if t.length < pos then []
    else
      match (if atLineStart t pos then matcher t pos else none) with
      | some e => pos :: scanAux t matcher fuel (max e (pos + 1))
      | none => scanAux t matcher fuel (pos + 1)

def findStarts (matcher : List Char → ℕ → Option ℕ) (t : List Char) : List ℕ :=
  scanAux t matcher (t.length + 2) 0

/-- `sorted(set(starts))` over the four pooled pattern families. -/
def clause_starts (norm : List Char) : List ℕ :=
  ((findStarts match_numeric norm ++ findStarts match_letter norm ++
    findStarts (matchWords ENG_HEADINGS) norm ++
    findStarts (matchWords HI_HEADINGS) norm).insertionSort (· ≤ ·)).dedup

/-! ## `extract_clauses` (src/nlp/preprocess.py lines 74-95) -/

structure Clause where
  clause_id : List Char
  text : List Char
deriving DecidableEq, Repr

def natDigitsAux : ℕ → ℕ → List Char
  | 0, _ => []
  | fuel + 1, n =>
    if n < 10 then [Char.ofNat (48 + n)]
    else natDigitsAux fuel (n / 10) ++ [Char.ofNat (48 + n % 10)]

def natDigits (n : ℕ) : List Char := natDigitsAux (n + 1) n

/-- `f"C{i:03d}"`. -/
def fmt_id (i : ℕ) : List Char :=
  let s := natDigits i
  'C' :: (List.replicate (3 - s.length) '0' ++ s)

def enumerateClauses (l : List (List Char)) : List Clause :=
  ((List.range l.length).zip l).map (fun pr => ⟨fmt_id (pr.1 + 1), pr.2⟩)

/-- Leftmost occurrence of `sep` in `t`. -/
def findSeqIdx (t sep : List Char) : Option ℕ :=
  (List.range (t.length + 1)).find? (fun i => sep.isPrefixOf (t.drop i))

/-- Python `str.split(sep)` for a non-empty separator. -/
def splitSeq (sep : List Char) : List Char → ℕ → List (List Char)
  | t, 0 => [t]
  | t, fuel + 1 =>
    match findSeqIdx t sep with
    | some i => t.take i :: splitSeq sep (t.drop (i + sep.length)) fuel
    | none => [t]

def segmentsOf (norm : List Char) : List ℕ → List (List Char)
  | [] => []
  | [s] => [slice norm s norm.length]
  | s :: s2 :: rest => slice norm s s2 :: segmentsOf norm (s2 :: rest)

/-- Strip each piece, drop the pieces that collapse to the empty string
    (the `if p.strip()` / `if chunk` filters of `extract_clauses`). -/
def nonEmptyPieces (l : List (List Char)) : List (List Char) :=
  (l.map pyStrip).filter (fun c => ¬ c.isEmpty)

/-- `extract_clauses` (src/nlp/preprocess.py). -/
def extract_clauses (text : List Char) : List Clause :=
  let norm := normalize_text text
  let starts := clause_starts norm
  if starts.isEmpty then
    enumerateClauses (nonEmptyPieces (splitSeq ['\n', '\n'] norm (norm.length + 1)))
  else
    enumerateClauses (nonEmptyPieces (segmentsOf norm starts))

example :
    extract_clauses "1. Alpha one\n2. Beta two".toList =
      [⟨"C001".toList, "1. Alpha one".toList⟩,
       ⟨"C002".toList, "2. Beta two".toList⟩] := by decide

example :
    extract_clauses "Preamble text here.\n1. First clause body".toList =
      [⟨"C001".toList, "1. First clause body".toList⟩] := by decide

example :
    extract_clauses "Para one here.\n\nPara two here.".toList =
      [⟨"C001".toList, "Para one here.".toList⟩,
       ⟨"C002".toList, "Para two here.".toList⟩] := by decide

example :
    extract_clauses "TERMINATION\nEither party may exit.\nTERM\nOne year.".toList =
      [⟨"C001".toList, "TERMINATION\nEither party may exit.".toList⟩,
       ⟨"C002".toList, "TERM\nOne year.".toList⟩] := by decide

/-! ## Reconstruction up to boundary whitespace.

    `reconstructsWS pieces t` holds when `t` is exactly the `pieces`, in
    order, interleaved with (possibly empty) runs of whitespace — the
    "concatenation with original boundary whitespace" of the spec. -/

def reconstructsWS : List (List Char) → List Char → Bool
  | [], t => t.all isWs
  | p :: ps, t =>
    (List.range (t.length + 1)).any (fun i =>
      (t.take i).all isWs && p.isPrefixOf (t.drop i) &&
        reconstructsWS ps ((t.drop i).drop p.length))

theorem reconstructsWS_cons_iff (p : List Char) (ps : List (List Char))
    (t : List Char) :
    reconstructsWS (p :: ps) t = true ↔
      ∃ w rest, w.all isWs = true ∧ t = w ++ p ++ rest ∧
        reconstructsWS ps rest = true := by
  constructor
  · intro h
    rw [reconstructsWS, List.any_eq_true] at h
    obtain ⟨i, _, hcond⟩ := h
    simp only [Bool.and_eq_true] at hcond
    obtain ⟨⟨hws, hpre⟩, hrec⟩ := hcond
    rw [List.isPrefixOf_iff_prefix] at hpre
    obtain ⟨s, hs⟩ := hpre
    refine ⟨t.take i, s, hws, ?_, ?_⟩
    · rw [List.append_assoc, hs, List.take_append_drop]
    · have : (t.drop i).drop p.length = s := by rw [← hs, List.drop_left]
      rwa [this] at hrec
  · rintro ⟨w, rest, hws, rfl, hrec⟩
    rw [reconstructsWS, List.any_eq_true]
    refine ⟨w.length, ?_, ?_⟩
    · rw [List.mem_range]
      simp [List.length_append]
      omega
    · simp only [Bool.and_eq_true]
      rw [List.append_assoc, List.take_left, List.drop_left]
      refine ⟨⟨hws, ?_⟩, ?_⟩
      · rw [List.isPrefixOf_iff_prefix]
        exact List.prefix_append p rest
      · rwa [List.drop_left]

theorem reconstructsWS_ws_prepend (ps : List (List Char)) (w t : List Char)
    (hw : w.all isWs = true) (h : reconstructsWS ps t = true) :
    reconstructsWS ps (w ++ t) = true := by
  cases ps with
  | nil =>
    rw [reconstructsWS] at h ⊢
    rw [List.all_append, h, hw]
    rfl
  | cons p ps =>
    rw [reconstructsWS_cons_iff] at h ⊢
    obtain ⟨w2, rest, hws2, rfl, hrec⟩ := h
    refine ⟨w ++ w2, rest, ?_, by simp [List.append_assoc], hrec⟩
    rw [List.all_append, hw, hws2]
    rfl

theorem pyStrip_decomp (l : List Char) :
    ∃ w1 w2, w1.all isWs = true ∧ w2.all isWs = true ∧
      l = w1 ++ pyStrip l ++ w2 := by
  refine ⟨l.takeWhile isWs,
    ((l.dropWhile isWs).reverse.takeWhile isWs).reverse, ?_, ?_, ?_⟩
  · rw [List.all_eq_true]
    intro x hx
    exact List.mem_takeWhile_imp hx
  · rw [List.all_eq_true]
    intro x hx
    rw [List.mem_reverse] at hx
    exact List.mem_takeWhile_imp hx
  · conv_lhs => rw [← List.takeWhile_append_dropWhile (p := isWs) (l := l)]
    rw [List.append_assoc]
    congr 1
    unfold pyStrip
    rw [← List.reverse_append, List.takeWhile_append_dropWhile, List.reverse_reverse]

theorem pyStrip_nil_all_ws (l : List Char) (h : pyStrip l = []) :
    l.all isWs = true := by
  obtain ⟨w1, w2, h1, h2, hdec⟩ := pyStrip_decomp l
  rw [h, List.append_nil] at hdec
  rw [hdec, List.all_append, h1, h2]
  rfl

theorem nonEmptyPieces_cons (s : List Char) (rest : List (List Char)) :
    nonEmptyPieces (s :: rest) =
      if (pyStrip s).isEmpty then nonEmptyPieces rest
      else pyStrip s :: nonEmptyPieces rest := by
  unfold nonEmptyPieces
  simp only [List.map_cons, List.filter_cons]
  by_cases h : (pyStrip s).isEmpty
  · simp [h]
  · simp [h]

/-- Stripping the segments and dropping the empties preserves
    reconstruction-up-to-whitespace of their exact concatenation. -/
theorem reconstructsWS_of_join (segs : List (List Char)) (t : List Char)
    (h : segs.foldr (· ++ ·) [] = t) :
    reconstructsWS (nonEmptyPieces segs) t = true := by
  induction segs generalizing t with
  | nil =>
    simp only [List.foldr_nil] at h
    subst h
    rfl
  | cons s rest ih =>
    simp only [List.foldr_cons] at h
    subst h
    obtain ⟨w1, w2, hw1, hw2, hdec⟩ := pyStrip_decomp s
    rw [nonEmptyPieces_cons]
    by_cases he : (pyStrip s).isEmpty
    · rw [if_pos he]
      rw [List.isEmpty_iff] at he
      have hsws : s.all isWs = true := pyStrip_nil_all_ws s he
      exact reconstructsWS_ws_prepend _ s _ hsws (ih _ rfl)
    · rw [if_neg he]
      rw [reconstructsWS_cons_iff]
      refine ⟨w1, w2 ++ rest.foldr (· ++ ·) [], hw1, ?_, ?_⟩
      · conv_lhs => rw [hdec]
        simp [List.append_assoc]
      · exact reconstructsWS_ws_prepend _ w2 _ hw2 (ih _ rfl)

theorem reconstructsWS_single (t : List Char) :
    reconstructsWS (nonEmptyPieces [t]) t = true :=
  reconstructsWS_of_join [t] t (by simp)

/-- Splitting on a whitespace separator, stripping, and dropping empties
    reconstructs the text up to boundary whitespace. -/
theorem splitSeq_reconstructsWS (sep : List Char) (hsep : sep.all isWs = true) :
    ∀ (fuel : ℕ) (t : List Char),
      reconstructsWS (nonEmptyPieces (splitSeq sep t fuel)) t = true := by
  intro fuel
  induction fuel with
  | zero => intro t; exact reconstructsWS_single t
  | succ fuel ih =>
    intro t
    rw [splitSeq]
    cases hfind : findSeqIdx t sep with
    | none => exact reconstructsWS_single t
    | some i =>
      have hpre : sep.isPrefixOf (t.drop i) = true := by
        have := List.find?_some hfind
        simpa using this
      rw [List.isPrefixOf_iff_prefix] at hpre
      obtain ⟨s, hs⟩ := hpre
      have hs2 : t.drop (i + sep.length) = s := by
        have : (t.drop i).drop sep.length = s := by rw [← hs, List.drop_left]
        rw [← this, List.drop_drop, Nat.add_comm]
      have ht : t = t.take i ++ (sep ++ t.drop (i + sep.length)) := by
        rw [hs2, hs, List.take_append_drop]
      rw [nonEmptyPieces_cons]
      by_cases he : (pyStrip (t.take i)).isEmpty
      · rw [if_pos he]
        rw [List.isEmpty_iff] at he
        have hws : (t.take i ++ sep).all isWs = true := by
          rw [List.all_append, pyStrip_nil_all_ws _ he, hsep]
          rfl
        have hmain := reconstructsWS_ws_prepend _ _ _ hws
          (ih (t.drop (i + sep.length)))
        rw [List.append_assoc, ← ht] at hmain
        exact hmain
      · rw [if_neg he]
        obtain ⟨w1, w2, hw1, hw2, hdec⟩ := pyStrip_decomp (t.take i)
        rw [reconstructsWS_cons_iff]
        refine ⟨w1, w2 ++ (sep ++ t.drop (i + sep.length)), hw1, ?_, ?_⟩
        · conv_lhs => rw [ht, hdec]
          simp [List.append_assoc]
        · exact reconstructsWS_ws_prepend _ w2 _ hw2
            (reconstructsWS_ws_prepend _ sep _ hsep (ih _))

/-- Consecutive slices at a weakly increasing start list concatenate to the
    suffix of the text from the first start. -/
theorem segmentsOf_foldr (norm : List Char) :
    ∀ (rest : List ℕ) (s : ℕ), List.Chain (· ≤ ·) s rest →
      (segmentsOf norm (s :: rest)).foldr (· ++ ·) [] = norm.drop s := by
  intro rest
  induction rest with
  | nil =>
    intro s _
    show slice norm s norm.length ++ [] = norm.drop s
    rw [List.append_nil]
    unfold slice
    rw [← List.length_drop, List.take_length]
  | cons s2 rest ih =>
    intro s hchain
    rw [List.chain_cons] at hchain
    obtain ⟨hle, hchain2⟩ := hchain
    show slice norm s s2 ++ (segmentsOf norm (s2 :: rest)).foldr (· ++ ·) [] =
      norm.drop s
    rw [ih s2 hchain2]
    unfold slice
    have : norm.drop s2 = (norm.drop s).drop (s2 - s) := by
      rw [List.drop_drop]
      have hadd : s + (s2 - s) = s2 := by omega
      rw [hadd]
    rw [this, List.take_append_drop]

theorem clause_starts_sorted (norm : List Char) :
    List.Sorted (· ≤ ·) (clause_starts norm) := by
  unfold clause_starts
  exact (List.sorted_insertionSort (· ≤ ·) _).sublist (List.dedup_sublist _)

theorem enumerateClauses_texts (l : List (List Char)) :
    (enumerateClauses l).map Clause.text = l := by
  unfold enumerateClauses
  rw [List.map_map]
  show List.map Prod.snd ((List.range l.length).zip l) = l
  rw [List.map_snd_zip]
  rw [List.length_range]

/-- C1, amended: the segmenter works on the *normalized* text; when at
    least one clause-start marker is found, the ordered clause texts,
    interleaved with whitespace only, reconstruct the normalized text from
    the first marker onward (text before the first marker is dropped);
    when no marker is found, the paragraph clauses reconstruct the whole
    normalized text up to boundary whitespace.  No characters are
    duplicated or reordered. -/
theorem c1_segmentation_coverage (t : List Char) :
    (clause_starts (normalize_text t) = [] →
      reconstructsWS ((extract_clauses t).map Clause.text)
        (normalize_text t) = true) ∧
    (∀ s0 rest, clause_starts (normalize_text t) = s0 :: rest →
      reconstructsWS ((extract_clauses t).map Clause.text)
        ((normalize_text t).drop s0) = true) := by
  constructor
  · intro h
    simp only [extract_clauses]
    rw [h]
    simp only [List.isEmpty_nil, if_true]
    rw [enumerateClauses_texts]
    exact splitSeq_reconstructsWS ['\n', '\n'] rfl _ _
  · intro s0 rest h
    simp only [extract_clauses]
    rw [h]
    simp only [List.isEmpty_cons, if_false, Bool.false_eq_true]
    rw [enumerateClauses_texts]
    have hsorted : List.Sorted (· ≤ ·) (s0 :: rest) := by
      rw [← h]; exact clause_starts_sorted _
    have hchain : List.Chain (· ≤ ·) s0 rest := by
      have := (List.chain'_iff_pairwise (R := (· ≤ ·))).mpr hsorted
      exact this
    exact reconstructsWS_of_join _ _ (segmentsOf_foldr _ rest s0 hchain)

/-- C1 counterexample: on the (already normalized) input
    `"Preamble text here.\n1. First clause body"` the segmenter returns a
    single clause `"1. First clause body"`; the non-whitespace preamble is
    dropped, so no interleaving with boundary whitespace can reconstruct
    the input — the claim as stated is false. -/
theorem c1_counterexample :
    normalize_text ("Preamble text here.\n1. First clause body".toList) =
      "Preamble text here.\n1. First clause body".toList ∧
    extract_clauses ("Preamble text here.\n1. First clause body".toList) =
      [⟨"C001".toList, "1. First clause body".toList⟩] ∧
    reconstructsWS
      ((extract_clauses ("Preamble text here.\n1. First clause body".toList)).map
        Clause.text)
      ("Preamble text here.\n1. First clause body".toList) = false := by
  refine ⟨by decide, by decide, by decide⟩

/-- Witness for `c1_segmentation_coverage`: both branches instantiated at
    concrete inputs. -/
theorem c1_segmentation_coverage_witness :
    (clause_starts (normalize_text "1. Alpha one\n2. Beta two".toList) =
      [0, 13] ∧
     reconstructsWS
       ((extract_clauses "1. Alpha one\n2. Beta two".toList).map Clause.text)
       ((normalize_text "1. Alpha one\n2. Beta two".toList).drop 0) = true) ∧
    (clause_starts (normalize_text "Para one here.\n\nPara two here.".toList) =
      [] ∧
     reconstructsWS
       ((extract_clauses "Para one here.\n\nPara two here.".toList).map
         Clause.text)
       (normalize_text "Para one here.\n\nPara two here.".toList) = true) :=
  ⟨⟨by decide,
    (c1_segmentation_coverage "1. Alpha one\n2. Beta two".toList).2 0 [13]
      (by decide)⟩,
   ⟨by decide,
    (c1_segmentation_coverage "Para one here.\n\nPara two here.".toList).1
      (by decide)⟩⟩

/-! ## Word-boundary literal matching.

    The risk/selector, deontic and contract-type regexes are alternations
    of case-insensitive literals with `\b` anchors at none, one or both
    ends.  Each regex is compiled to a list of `LitAlt` alternatives
    (optional groups like `s?` and `[- ]?` expanded); `searchAlts` is
    `pattern.search(text) is not None`. -/

structure LitAlt where
  chars : List Char
  bStart : Bool
  bEnd : Bool

def wordCharAt (t : List Char) (i : ℕ) : Bool :=
  match chAt t i with
  | some c => isWordCh c
  | none => false

/-- `\b` at position `p` of `t`. -/
def boundaryAt (t : List Char) (p : ℕ) : Bool :=
  (decide (0 < p) && wordCharAt t (p - 1)) != wordCharAt t p

/-- The literal matches at position `i` (case-insensitively: `a.chars` is
    stored lowercased), with its word-boundary anchors. -/
def litMatchAt (t : List Char) (i : ℕ) (a : LitAlt) : Bool :=
  decide (((t.drop i).take a.chars.length).map Char.toLower = a.chars) &&
    (!a.bStart || boundaryAt t i) && (!a.bEnd || boundaryAt t (i + a.chars.length))

/-- `re.search` (with `re.I`) of an alternation of literals. -/
def searchAlts (alts : List LitAlt) (t : List Char) : Bool :=
  (List.range (t.length + 1)).any (fun i => alts.any (litMatchAt t i))

/-- `first.*second` (the `.` of Python `re` does not cross newlines):
    a match of some `alts1` literal, then any non-newline gap, then a match
    of some `alts2` literal. -/
def searchSeqSameLine (alts1 alts2 : List LitAlt) (t : List Char) : Bool :=
  (List.range (t.length + 1)).any (fun i =>
    alts1.any (fun a =>
      litMatchAt t i a &&
        (let e := i + a.chars.length
         (List.range (t.length + 1 - e)).any (fun d =>
           (slice t e (e + d)).all (fun c => c != '\n') &&
             alts2.any (litMatchAt t (e + d))))))

/-- `\bLIT\b`. -/
def wb (s : String) : LitAlt := ⟨lowerL s.toList, true, true⟩

/-- `\bLIT` (boundary only on the left). -/
def wbL (s : String) : LitAlt := ⟨lowerL s.toList, true, false⟩

/-- `LIT\b` (boundary only on the right). -/
def wbR (s : String) : LitAlt := ⟨lowerL s.toList, false, true⟩

/-- bare `LIT` (no boundary). -/
def wbN (s : String) : LitAlt := ⟨lowerL s.toList, false, false⟩

/-! ## Clause selector (src/risk/selector.py) -/

/-- `SELECT_PATTERNS` (src/risk/selector.py): label, weight, compiled
    matcher.  Alternations are expanded literal by literal; note that in
    the Termination pattern `\bterminate|termination|...|immediate effect\b`
    the `\b` anchors attach only to the first and last alternative, and the
    IP-Assignment pattern is a two-part `.*` pattern. -/
def SELECT_PATTERNS : List ((List Char) × ℕ × (List Char → Bool)) :=
  [("Indemnity".toList, 5,
     searchAlts [wb "indemnify", wb "indemnifies", wb "indemnification",
                 wb "hold harmless"]),
   ("Penalty/Liquidated Damages".toList, 5,
     searchAlts [wb "liquidated damages", wb "penalty", wb "penalties"]),
   ("Termination".toList, 5,
     searchAlts [wbL "terminate", wbN "termination", wbN "without cause",
                 wbN "sole discretion", wbR "immediate effect"]),
   ("Liability".toList, 5,
     searchAlts [wb "liability", wb "unlimited", wb "cap",
                 wb "limit of liability"]),
   ("Jurisdiction/Governing Law".toList, 4,
     searchAlts [wb "governing law", wb "jurisdiction", wb "court of",
                 wb "courts of", wb "exclusive jurisdiction"]),
   ("Arbitration".toList, 3,
     searchAlts [wb "arbitration", wb "seat", wb "rules"]),
   ("Auto-Renewal".toList, 4,
     searchAlts [wb "autorenew", wb "auto-renew", wb "auto renew",
                 wb "automatically renew", wb "renewal"]),
   ("Lock-in/Commitment".toList, 5,
     searchAlts [wb "lockin", wb "lock-in", wb "lock in",
                 wb "min commitment", wb "minimum commitment",
                 wb "noncancellable", wb "non-cancellable",
                 wb "non cancellable"]),
   ("Non-Compete".toList, 5,
     searchAlts [wb "noncompete", wb "non-compete", wb "non compete",
                 wb "restraint of trade"]),
   ("IP Assignment/Transfer".toList, 5,
     searchSeqSameLine [wb "intellectual property", wb "IP"]
       [wb "assign", wb "assignment", wb "transfer"]),
   ("Confidentiality/NDA".toList, 2,
     searchAlts [wb "confidential", wb "nondisclosure", wb "non-disclosure",
                 wb "non disclosure", wb "NDA"]),
   ("Payment".toList, 2,
     searchAlts [wb "payment", wb "fee", wb "fees", wb "invoice",
                 wb "late fee", wb "interest"]),
   ("Scope/Deliverables".toList, 1,
     searchAlts [wb "scope", wb "deliverable", wb "deliverables",
                 wb "milestone", wb "SLA", wb "service level",
                 wb "service levels"]),
   ("Term/Duration".toList, 1,
     searchAlts [wb "term", wb "duration", wb "commence",
                 wb "effective date"])]

/-- `score_clause` (src/risk/selector.py). -/
def score_clause (text : List Char) : ℕ × List (List Char) :=
  SELECT_PATTERNS.foldl
    (fun acc pat => if pat.2.2 text then (acc.1 + pat.2.1, acc.2 ++ [pat.1])
                    else acc)
    (0, [])

/-- Input clause dict `{"clause_id": ..., "text": ...}`. -/
structure InClause where
  clause_id : List Char
  text : List Char
deriving DecidableEq, Repr

structure SelectedClause where
  clause_id : List Char
  text : List Char
  score : ℕ
  reasons : List (List Char)
deriving DecidableEq, Repr

def toSelected (c : InClause) : SelectedClause :=
  ⟨c.clause_id, c.text, (score_clause c.text).1, (score_clause c.text).2⟩

/-- Python `sorted(..., key=lambda x: (x.score, len(x.text)), reverse=True)`
    as its comparison relation: `a` may come before `b`. -/
def rankGE (a b : SelectedClause) : Prop :=
  b.score < a.score ∨ (b.score = a.score ∧ b.text.length ≤ a.text.length)

instance : DecidableRel rankGE := fun a b => by
  unfold rankGE; infer_instance

instance : IsTotal SelectedClause rankGE :=
  ⟨by intro a b; unfold rankGE; omega⟩

instance : IsTrans SelectedClause rankGE :=
  ⟨by intro a b c; unfold rankGE; omega⟩

def scored_of (clauses_list : List InClause) : List SelectedClause :=
  clauses_list.map toSelected

/-- Stable descending sort by `(score, len(text))` — Python's stable
    `sorted(..., reverse=True)` is insertion sort with `rankGE`. -/
def ranked_of (clauses_list : List InClause) : List SelectedClause :=
  (scored_of clauses_list).insertionSort rankGE

/-- One step of the `seen_ids` bookkeeping: append the clause unless its id
    is falsy (empty) or already seen. -/
def addSel (st : List SelectedClause × List (List Char)) (c : SelectedClause) :
    List SelectedClause × List (List Char) :=
  if c.clause_id ≠ [] ∧ c.clause_id ∉ st.2 then
    (st.1 ++ [c], st.2 ++ [c.clause_id])
  else st

/-- The baseline loop (`for c in baseline`). -/
def baseline_sel (clauses_list : List InClause) (ensure_baseline : ℕ) :
    List SelectedClause × List (List Char) :=
  ((scored_of clauses_list).take ensure_baseline).foldl addSel ([], [])

/-- The ranked loop (`for c in ranked`), with the budget break. -/
def fill_ranked (maxC : ℕ) :
    List SelectedClause → List SelectedClause → List (List Char) →
      List SelectedClause
  | [], sel, _ => sel
  | c :: rest, sel, seen =>
    if maxC ≤ sel.length then sel
    else if c.clause_id ≠ [] ∧ c.clause_id ∉ seen ∧
            (0 < c.score ∨ sel.length < maxC) then
      fill_ranked maxC rest (sel ++ [c]) (seen ++ [c.clause_id])
    else fill_ranked maxC rest sel seen

structure SelectStats where
  total_clauses : ℕ
  selected_for_llm : ℕ
  max_llm_clauses : ℕ
  baseline_included : ℕ
  top_scores : List ℕ
deriving DecidableEq, Repr

/-- `smart_select_clauses` (src/risk/selector.py); `max(0, ensure_baseline)`
    is the identity on `ℕ`. -/
def smart_select_clauses (clauses_list : List InClause)
    (max_llm_clauses ensure_baseline : ℕ) :
    List SelectedClause × SelectStats :=
  let basePair := baseline_sel clauses_list ensure_baseline
  let selected := fill_ranked max_llm_clauses (ranked_of clauses_list)
    basePair.1 basePair.2
  (selected,
   ⟨clauses_list.length, selected.length, max_llm_clauses,
    ((scored_of clauses_list).take ensure_baseline).length,
    (((selected.map SelectedClause.score).dedup).insertionSort
      (fun a b => b ≤ a)).take 5⟩)

example : (score_clause "The vendor shall pay a penalty fee.".toList).1 = 7 := by
  decide

example :
    (score_clause "x".toList).1 = 0 ∧
    (smart_select_clauses
      [⟨"C001".toList, "x".toList⟩, ⟨"C002".toList, "penalty".toList⟩] 12 2).1.map
        SelectedClause.clause_id = ["C001".toList, "C002".toList] := by
  refine ⟨by decide, by decide⟩

theorem foldl_addSel_length (l : List SelectedClause) :
    ∀ st : List SelectedClause × List (List Char),
      ((l.foldl addSel st).1.length ≤ st.1.length + l.length) := by
  induction l with
  | nil => intro st; simp
  | cons c rest ih =>
    intro st
    rw [List.foldl_cons]
    have hstep : (addSel st c).1.length ≤ st.1.length + 1 := by
      unfold addSel
      by_cases h : c.clause_id ≠ [] ∧ c.clause_id ∉ st.2
      · rw [if_pos h]; simp
      · rw [if_neg h]; omega
    have := ih (addSel st c)
    simp only [List.length_cons]
    omega

theorem foldl_addSel_seen (l : List SelectedClause) :
    ∀ st : List SelectedClause × List (List Char),
      st.2 = st.1.map SelectedClause.clause_id →
      (l.foldl addSel st).2 = (l.foldl addSel st).1.map SelectedClause.clause_id := by
  induction l with
  | nil => intro st h; exact h
  | cons c rest ih =>
    intro st h
    rw [List.foldl_cons]
    refine ih _ ?_
    unfold addSel
    by_cases hc : c.clause_id ≠ [] ∧ c.clause_id ∉ st.2
    · rw [if_pos hc]
      simp [h]
    · rw [if_neg hc]
      exact h

theorem foldl_addSel_seen_mono (l : List SelectedClause) :
    ∀ (st : List SelectedClause × List (List Char)) (x : List Char),
      x ∈ st.2 → x ∈ (l.foldl addSel st).2 := by
  induction l with
  | nil => intro st x h; exact h
  | cons c rest ih =>
    intro st x h
    rw [List.foldl_cons]
    refine ih _ x ?_
    unfold addSel
    by_cases hc : c.clause_id ≠ [] ∧ c.clause_id ∉ st.2
    · rw [if_pos hc]
      simp only
      exact List.mem_append_left _ h
    · rw [if_neg hc]
      exact h

theorem foldl_addSel_mem (l : List SelectedClause) :
    ∀ (st : List SelectedClause × List (List Char)) (c : SelectedClause),
      c ∈ l → c.clause_id ≠ [] → c.clause_id ∈ (l.foldl addSel st).2 := by
  induction l with
  | nil => intro st c h; exact absurd h (List.not_mem_nil c)
  | cons d rest ih =>
    intro st c hmem hne
    rw [List.foldl_cons]
    rcases List.mem_cons.mp hmem with heq | hrest
    · subst heq
      by_cases hc : c.clause_id ∉ st.2
      · refine foldl_addSel_seen_mono rest _ _ ?_
        unfold addSel
        rw [if_pos ⟨hne, hc⟩]
        simp
      · push_neg at hc
        refine foldl_addSel_seen_mono rest _ _ ?_
        unfold addSel
        by_cases h2 : c.clause_id ≠ [] ∧ c.clause_id ∉ st.2
        · rw [if_pos h2]
          simp only
          exact List.mem_append_left _ hc
        · rw [if_neg h2]
          exact hc
    · exact ih _ c hrest hne

theorem fill_ranked_shape (maxC : ℕ) (l : List SelectedClause) :
    ∀ sel seen, ∃ extra,
      fill_ranked maxC l sel seen = sel ++ extra ∧ extra.Sublist l := by
  induction l with
  | nil =>
    intro sel seen
    exact ⟨[], by rw [List.append_nil]; rfl, List.nil_sublist _⟩
  | cons c rest ih =>
    intro sel seen
    rw [fill_ranked]
    by_cases hbreak : maxC ≤ sel.length
    · rw [if_pos hbreak]
      exact ⟨[], by rw [List.append_nil], List.nil_sublist _⟩
    · rw [if_neg hbreak]
      by_cases hadd : c.clause_id ≠ [] ∧ c.clause_id ∉ seen ∧
          (0 < c.score ∨ sel.length < maxC)
      · rw [if_pos hadd]
        obtain ⟨e, he, hsub⟩ := ih (sel ++ [c]) (seen ++ [c.clause_id])
        refine ⟨c :: e, ?_, List.Sublist.cons₂ c hsub⟩
        rw [he, List.append_assoc]
        rfl
      · rw [if_neg hadd]
        obtain ⟨e, he, hsub⟩ := ih sel seen
        exact ⟨e, he, List.Sublist.cons c hsub⟩

theorem fill_ranked_length (maxC : ℕ) (l : List SelectedClause) :
    ∀ sel seen, (fill_ranked maxC l sel seen).length ≤ max maxC sel.length := by
  induction l with
  | nil => intro sel seen; exact Nat.le_max_right _ _
  | cons c rest ih =>
    intro sel seen
    rw [fill_ranked]
    by_cases hbreak : maxC ≤ sel.length
    · rw [if_pos hbreak]
      exact Nat.le_max_right _ _
    · rw [if_neg hbreak]
      by_cases hadd : c.clause_id ≠ [] ∧ c.clause_id ∉ seen ∧
          (0 < c.score ∨ sel.length < maxC)
      · rw [if_pos hadd]
        have := ih (sel ++ [c]) (seen ++ [c.clause_id])
        have hlen : (sel ++ [c]).length = sel.length + 1 := by simp
        rw [hlen] at this
        have h2 : sel.length + 1 ≤ maxC := Nat.lt_of_not_le hbreak
        omega
      · rw [if_neg hadd]
        exact ih sel seen

/-- C2, amended: the selector returns at most
    `max maxClauses ensureBaseline` clauses (the baseline loop has no
    budget check, so `ensureBaseline > maxClauses` overruns the budget);
    every one of the first `ensureBaseline` clauses whose id is non-empty
    (Python truthiness) has its id in the selected output; and the
    non-baseline slots are filled in the order of the stable descending
    `(score, text length)` ranking. -/
theorem c2_selector_budget (clauses : List InClause) (maxC ensure : ℕ) :
    ((smart_select_clauses clauses maxC ensure).1.length ≤ max maxC ensure) ∧
    (∀ c ∈ clauses.take ensure, c.clause_id ≠ [] →
      c.clause_id ∈
        (smart_select_clauses clauses maxC ensure).1.map SelectedClause.clause_id) ∧
    (List.Sorted rankGE (ranked_of clauses) ∧
     ∃ extra,
       (smart_select_clauses clauses maxC ensure).1 =
         (baseline_sel clauses ensure).1 ++ extra ∧
       extra.Sublist (ranked_of clauses)) := by
  have hsel : (smart_select_clauses clauses maxC ensure).1 =
      fill_ranked maxC (ranked_of clauses) (baseline_sel clauses ensure).1
        (baseline_sel clauses ensure).2 := rfl
  refine ⟨?_, ?_, ?_, ?_⟩
  · rw [hsel]
    have h1 := fill_ranked_length maxC (ranked_of clauses)
      (baseline_sel clauses ensure).1 (baseline_sel clauses ensure).2
    have h2 : (baseline_sel clauses ensure).1.length ≤ ensure := by
      have := foldl_addSel_length ((scored_of clauses).take ensure) ([], [])
      have hlen : ((scored_of clauses).take ensure).length ≤ ensure := by
        rw [List.length_take]
        omega
      unfold baseline_sel
      simp only [List.length_nil] at this
      omega
    omega
  · intro c hc hne
    have hmemScored : toSelected c ∈ (scored_of clauses).take ensure := by
      unfold scored_of
      rw [← List.map_take]
      exact List.mem_map_of_mem toSelected hc
    have hseen : (toSelected c).clause_id ∈ (baseline_sel clauses ensure).2 :=
      foldl_addSel_mem _ ([], []) (toSelected c) hmemScored hne
    have hinv : (baseline_sel clauses ensure).2 =
        (baseline_sel clauses ensure).1.map SelectedClause.clause_id :=
      foldl_addSel_seen _ ([], []) rfl
    rw [hinv] at hseen
    obtain ⟨e, he, _⟩ := fill_ranked_shape maxC (ranked_of clauses)
      (baseline_sel clauses ensure).1 (baseline_sel clauses ensure).2
    rw [hsel, he, List.map_append]
    exact List.mem_append_left _ hseen
  · exact List.sorted_insertionSort rankGE _
  · rw [hsel]
    exact fill_ranked_shape maxC (ranked_of clauses) _ _

/-- Witness for `c2_selector_budget` at a concrete clause list. -/
theorem c2_selector_budget_witness :
    "C001".toList ∈
      (smart_select_clauses
        [⟨"C001".toList, "x".toList⟩, ⟨"C002".toList, "penalty".toList⟩]
        12 2).1.map SelectedClause.clause_id :=
  (c2_selector_budget
    [⟨"C001".toList, "x".toList⟩, ⟨"C002".toList, "penalty".toList⟩] 12 2).2.1
    ⟨"C001".toList, "x".toList⟩ (by decide) (by decide)

/-- C2 counterexample: with `maxClauses = 1, ensureBaseline = 2` the
    selector returns 2 clauses — more than `maxClauses`; and a first
    clause whose id is the empty string is not represented in the output
    at all, so its id does not appear even though the list has
    `ensureBaseline` many clauses. -/
theorem c2_counterexample :
    ((smart_select_clauses
        [⟨"C001".toList, "x".toList⟩, ⟨"C002".toList, "y".toList⟩] 1 2).1.length
      = 2) ∧
    ((smart_select_clauses [⟨[], "x".toList⟩] 12 1).1 = []) := by
  refine ⟨by decide, by decide⟩

/-! ## Deontic extraction (src/nlp/deontic.py) -/

def OBLIGATION_PAT (s : List Char) : Bool :=
  searchAlts [wb "shall", wb "must", wb "is required to", wb "are required to",
              wb "will"] s

def RIGHT_PAT (s : List Char) : Bool :=
  searchAlts [wb "may", wb "is entitled to", wb "are entitled to", wb "can"] s

def PROHIBITION_PAT (s : List Char) : Bool :=
  searchAlts [wb "shall not", wb "must not", wb "may not",
              wb "is prohibited from", wb "are prohibited from"] s

/-- `re.sub(r"\s+", " ", line)` (fuel-driven; called with enough fuel). -/
def collapse_ws_aux : ℕ → List Char → List Char
  | 0, l => l
  | _, [] => []
  | fuel + 1, c :: rest =>
    if isWs c then ' ' :: collapse_ws_aux fuel (rest.dropWhile isWs)
    else c :: collapse_ws_aux fuel rest

/-- `_clean_line` (src/nlp/deontic.py): strip, then collapse whitespace. -/
def clean_line (l : List Char) : List Char :=
  collapse_ws_aux (pyStrip l).length (pyStrip l)

def bdAt (t : List Char) (i : ℕ) : Bool :=
  match chAt t i with
  | some c => c == '.' || c == ';' || c == ':' || c == '\n'
  | none => false

def wsAt (t : List Char) (i : ℕ) : Bool :=
  match chAt t i with
  | some c => isWs c
  | none => false

/-- Leftmost start `j ≥ q` of a `(?<=[.;:\n])\s+` match. -/
def nextSplit (t : List Char) (q : ℕ) : Option ℕ :=
  (List.range (t.length + 1)).find?
    (fun j => decide (q ≤ j) && decide (1 ≤ j) && bdAt t (j - 1) && wsAt t j)

/-- `re.split(r"(?<=[.;:\n])\s+", t)`: pieces between the separator runs. -/
def sent_split_aux (t : List Char) : ℕ → ℕ → List (List Char)
  | 0, q => [t.drop q]
  | fuel + 1, q =>
    match nextSplit t q with
    | some j => slice t q j :: sent_split_aux t fuel (j + wsLen t j)
    | none => [t.drop q]

def sent_split (t : List Char) : List (List Char) :=
  sent_split_aux t (t.length + 1) 0

/-- Case-insensitive dedupe preserving first-seen order (the inner `dedupe`
    of `extract_deontic_statements`). -/
def dedupe_ci_aux : List (List Char) → List (List Char) → List (List Char)
  | [], _ => []
  | x :: rest, seen =>
    if lowerL x ∈ seen then dedupe_ci_aux rest seen
    else x :: dedupe_ci_aux rest (lowerL x :: seen)

def dedupe_ci (items : List (List Char)) : List (List Char) :=
  dedupe_ci_aux items []

/-- The `for c in candidates` loop with its precedence `if/elif` chain and
    the all-three-full break; state is `(obligations, rights, prohibitions)`. -/
def deontic_loop (maxE : ℕ) :
    List (List Char) →
      List (List Char) × List (List Char) × List (List Char) →
      List (List Char) × List (List Char) × List (List Char)
  | [], st => st
  | c :: rest, st =>
    let s := clean_line c
    if s.isEmpty ∨ s.length < 12 then deontic_loop maxE rest st
    else
      let st2 :=
        if PROHIBITION_PAT s then (st.1, st.2.1, st.2.2 ++ [s])
        else if OBLIGATION_PAT s then (st.1 ++ [s], st.2.1, st.2.2)
        else if RIGHT_PAT s then (st.1, st.2.1 ++ [s], st.2.2)
        else st
      if maxE ≤ st2.1.length ∧ maxE ≤ st2.2.1.length ∧ maxE ≤ st2.2.2.length then
        st2
      else deontic_loop maxE rest st2

structure DeonticResult where
  obligations : List (List Char)
  rights : List (List Char)
  prohibitions : List (List Char)
  counts : ℕ × ℕ × ℕ
deriving DecidableEq, Repr

/-- `extract_deontic_statements` (src/nlp/deontic.py); the default
    `max_items_each` is 12. -/
def extract_deontic_statements (text : List Char) (max_items_each : ℕ) :
    DeonticResult :=
  let st := deontic_loop max_items_each (sent_split text) ([], [], [])
  let ob := (dedupe_ci st.1).take max_items_each
  let ri := (dedupe_ci st.2.1).take max_items_each
  let pr := (dedupe_ci st.2.2).take max_items_each
  ⟨ob, ri, pr, (ob.length, ri.length, pr.length)⟩

example :
    extract_deontic_statements
      ("This Agreement shall not be assigned by either party. The Vendor may terminate at any time in its sole discretion.".toList)
      12 =
    ⟨[], ["The Vendor may terminate at any time in its sole discretion.".toList],
     ["This Agreement shall not be assigned by either party.".toList],
     (0, 1, 1)⟩ := by decide

theorem deontic_loop_inv (maxE : ℕ) (l : List (List Char)) :
    ∀ st : List (List Char) × List (List Char) × List (List Char),
      (∀ s ∈ st.1, PROHIBITION_PAT s = false ∧ OBLIGATION_PAT s = true) →
      (∀ s ∈ st.2.1, PROHIBITION_PAT s = false ∧ OBLIGATION_PAT s = false ∧
        RIGHT_PAT s = true) →
      (∀ s ∈ st.2.2, PROHIBITION_PAT s = true) →
      ((∀ s ∈ (deontic_loop maxE l st).1,
          PROHIBITION_PAT s = false ∧ OBLIGATION_PAT s = true) ∧
       (∀ s ∈ (deontic_loop maxE l st).2.1,
          PROHIBITION_PAT s = false ∧ OBLIGATION_PAT s = false ∧
            RIGHT_PAT s = true) ∧
       (∀ s ∈ (deontic_loop maxE l st).2.2, PROHIBITION_PAT s = true)) := by
  induction l with
  | nil => intro st h1 h2 h3; exact ⟨h1, h2, h3⟩
  | cons c rest ih =>
    intro st h1 h2 h3
    rw [deontic_loop]
    by_cases hshort : (clean_line c).isEmpty = true ∨ (clean_line c).length < 12
    · rw [if_pos hshort]
      exact ih st h1 h2 h3
    · rw [if_neg hshort]
      simp only
      have hst2 :
          ∀ st2 : List (List Char) × List (List Char) × List (List Char),
            st2 = (if PROHIBITION_PAT (clean_line c) then
                     (st.1, st.2.1, st.2.2 ++ [clean_line c])
                   else if OBLIGATION_PAT (clean_line c) then
                     (st.1 ++ [clean_line c], st.2.1, st.2.2)
                   else if RIGHT_PAT (clean_line c) then
                     (st.1, st.2.1 ++ [clean_line c], st.2.2)
                   else st) →
            (∀ s ∈ st2.1, PROHIBITION_PAT s = false ∧ OBLIGATION_PAT s = true) ∧
            (∀ s ∈ st2.2.1, PROHIBITION_PAT s = false ∧
              OBLIGATION_PAT s = false ∧ RIGHT_PAT s = true) ∧
            (∀ s ∈ st2.2.2, PROHIBITION_PAT s = true) := by
        intro st2 hdef
        by_cases hp : PROHIBITION_PAT (clean_line c) = true
        · rw [if_pos hp] at hdef
          subst hdef
          refine ⟨h1, h2, ?_⟩
          intro s hs
          rcases List.mem_append.mp hs with h | h
          · exact h3 s h
          · rw [List.mem_singleton] at h
            subst h
            exact hp
        · rw [if_neg hp] at hdef
          rw [Bool.not_eq_true] at hp
          by_cases ho : OBLIGATION_PAT (clean_line c) = true
          · rw [if_pos ho] at hdef
            subst hdef
            refine ⟨?_, h2, h3⟩
            intro s hs
            rcases List.mem_append.mp hs with h | h
            · exact h1 s h
            · rw [List.mem_singleton] at h
              subst h
              exact ⟨hp, ho⟩
          · rw [if_neg ho] at hdef
            rw [Bool.not_eq_true] at ho
            by_cases hr : RIGHT_PAT (clean_line c) = true
            · rw [if_pos hr] at hdef
              subst hdef
              refine ⟨h1, ?_, h3⟩
              intro s hs
              rcases List.mem_append.mp hs with h | h
              · exact h2 s h
              · rw [List.mem_singleton] at h
                subst h
                exact ⟨hp, ho, hr⟩
            · rw [if_neg hr] at hdef
              subst hdef
              exact ⟨h1, h2, h3⟩
      have hinv2 := hst2 _ rfl
      by_cases hfull : maxE ≤ (if PROHIBITION_PAT (clean_line c) then
              (st.1, st.2.1, st.2.2 ++ [clean_line c])
            else if OBLIGATION_PAT (clean_line c) then
              (st.1 ++ [clean_line c], st.2.1, st.2.2)
            else if RIGHT_PAT (clean_line c) then
              (st.1, st.2.1 ++ [clean_line c], st.2.2)
            else st).1.length ∧
          maxE ≤ (if PROHIBITION_PAT (clean_line c) then
              (st.1, st.2.1, st.2.2 ++ [clean_line c])
            else if OBLIGATION_PAT (clean_line c) then
              (st.1 ++ [clean_line c], st.2.1, st.2.2)
            else if RIGHT_PAT (clean_line c) then
              (st.1, st.2.1 ++ [clean_line c], st.2.2)
            else st).2.1.length ∧
          maxE ≤ (if PROHIBITION_PAT (clean_line c) then
              (st.1, st.2.1, st.2.2 ++ [clean_line c])
            else if OBLIGATION_PAT (clean_line c) then
              (st.1 ++ [clean_line c], st.2.1, st.2.2)
            else if RIGHT_PAT (clean_line c) then
              (st.1, st.2.1 ++ [clean_line c], st.2.2)
            else st).2.2.length
      · rw [if_pos hfull]
        exact hinv2
      · rw [if_neg hfull]
        exact ih _ hinv2.1 hinv2.2.1 hinv2.2.2

theorem dedupe_ci_aux_subset :
    ∀ (l seen : List (List Char)) (s : List Char),
      s ∈ dedupe_ci_aux l seen → s ∈ l := by
  intro l
  induction l with
  | nil => intro seen s h; exact absurd h (List.not_mem_nil s)
  | cons x rest ih =>
    intro seen s h
    rw [dedupe_ci_aux] at h
    by_cases hx : lowerL x ∈ seen
    · rw [if_pos hx] at h
      exact List.mem_cons_of_mem x (ih seen s h)
    · rw [if_neg hx] at h
      rcases List.mem_cons.mp h with h | h
      · exact h ▸ List.mem_cons_self x rest
      · exact List.mem_cons_of_mem x (ih _ s h)

/-- C5: each retained sentence-like unit lands in at most one deontic
    category, decided by the strict precedence prohibition → obligation →
    right: every emitted prohibition matches the prohibition pattern, every
    emitted obligation matches the obligation pattern but *not* the
    prohibition pattern, every emitted right matches neither of those, and
    the three output lists are pairwise disjoint — in particular a sentence
    matching both a prohibition and an obligation pattern is recorded only
    as a prohibition. -/
theorem c5_deontic_precedence (text : List Char) (maxE : ℕ) :
    (∀ s ∈ (extract_deontic_statements text maxE).prohibitions,
        PROHIBITION_PAT s = true) ∧
    (∀ s ∈ (extract_deontic_statements text maxE).obligations,
        PROHIBITION_PAT s = false ∧ OBLIGATION_PAT s = true) ∧
    (∀ s ∈ (extract_deontic_statements text maxE).rights,
        PROHIBITION_PAT s = false ∧ OBLIGATION_PAT s = false ∧
          RIGHT_PAT s = true) ∧
    (∀ s : List Char,
      ¬ (s ∈ (extract_deontic_statements text maxE).obligations ∧
          s ∈ (extract_deontic_statements text maxE).prohibitions) ∧
      ¬ (s ∈ (extract_deontic_statements text maxE).rights ∧
          s ∈ (extract_deontic_statements text maxE).prohibitions) ∧
      ¬ (s ∈ (extract_deontic_statements text maxE).obligations ∧
          s ∈ (extract_deontic_statements text maxE).rights)) := by
  have hinv := deontic_loop_inv maxE (sent_split text) ([], [], [])
    (by intro s h; exact absurd h (List.not_mem_nil s))
    (by intro s h; exact absurd h (List.not_mem_nil s))
    (by intro s h; exact absurd h (List.not_mem_nil s))
  have hob : ∀ s ∈ (extract_deontic_statements text maxE).obligations,
      PROHIBITION_PAT s = false ∧ OBLIGATION_PAT s = true := by
    intro s hs
    exact hinv.1 s (dedupe_ci_aux_subset _ [] s (List.take_subset _ _ hs))
  have hri : ∀ s ∈ (extract_deontic_statements text maxE).rights,
      PROHIBITION_PAT s = false ∧ OBLIGATION_PAT s = false ∧
        RIGHT_PAT s = true := by
    intro s hs
    exact hinv.2.1 s (dedupe_ci_aux_subset _ [] s (List.take_subset _ _ hs))
  have hpr : ∀ s ∈ (extract_deontic_statements text maxE).prohibitions,
      PROHIBITION_PAT s = true := by
    intro s hs
    exact hinv.2.2 s (dedupe_ci_aux_subset _ [] s (List.take_subset _ _ hs))
  refine ⟨hpr, hob, hri, ?_⟩
  intro s
  refine ⟨?_, ?_, ?_⟩
  · rintro ⟨h1, h2⟩
    have := (hob s h1).1
    have := hpr s h2
    simp_all
  · rintro ⟨h1, h2⟩
    have := (hri s h1).1
    have := hpr s h2
    simp_all
  · rintro ⟨h1, h2⟩
    have := (hob s h1).2
    have := (hri s h2).2.1
    simp_all

/-- Witness for `c5_deontic_precedence`: a sentence matching both the
    prohibition and the obligation pattern is recorded as a prohibition. -/
theorem c5_deontic_precedence_witness :
    "The party shall not assign this contract.".toList ∈
      (extract_deontic_statements
        "The party shall not assign this contract.".toList 12).prohibitions ∧
    OBLIGATION_PAT "The party shall not assign this contract.".toList = true ∧
    PROHIBITION_PAT "The party shall not assign this contract.".toList = true :=
  ⟨by decide, by decide,
   (c5_deontic_precedence "The party shall not assign this contract.".toList 12).1
     _ (by decide)⟩

/-! ## Python `round(x, 2)` on `ℚ` (banker's rounding at two decimals). -/

def roundHalfEven (q : ℚ) : ℤ :=
  if Int.fract q = 1 / 2 then (if Even ⌊q⌋ then ⌊q⌋ else ⌊q⌋ + 1) else round q

def pyRound2 (q : ℚ) : ℚ := (roundHalfEven (q * 100) : ℚ) / 100

theorem roundHalfEven_intCast (z : ℤ) : roundHalfEven (z : ℚ) = z := by
  unfold roundHalfEven
  rw [Int.fract_intCast]
  rw [if_neg (by norm_num)]
  exact round_intCast z

/-- `round(x, 2)` is the identity on exact multiples of `1/100`. -/
theorem pyRound2_cent (z : ℤ) : pyRound2 ((z : ℚ) / 100) = (z : ℚ) / 100 := by
  unfold pyRound2
  have h : ((z : ℚ) / 100) * 100 = (z : ℚ) := by
    field_simp
  rw [h, roundHalfEven_intCast]

/-! ## Contract-type classifier (src/nlp/contract_type.py) -/

def CONTRACT_TYPES : List (List Char) :=
  ["employment_agreement", "vendor_contract", "lease_agreement",
   "partnership_deed", "service_contract", "unknown"].map String.toList

/-- Plain case-sensitive substring containment (Python `in` on `str`). -/
def containsSub (t w : List Char) : Bool :=
  (List.range (t.length + 1)).any (fun i => w.isPrefixOf (t.drop i))

/-- `RULE_SETS` (src/nlp/contract_type.py), in dict insertion order. -/
def RULE_SETS : List ((List Char) × List (List Char)) :=
  [("employment_agreement".toList,
    ["employee", "employer", "employment", "salary", "wages", "probation",
     "notice period", "termination", "hr", "designation", "work hours",
     "confidentiality", "non-compete", "non solicitation", "leave",
     "appraisal", "ctc", "joining", "offer letter"].map String.toList),
   ("vendor_contract".toList,
    ["vendor", "purchase order", "po", "supply", "goods", "delivery",
     "acceptance", "invoice", "quality", "inspection", "warranty",
     "indemnity", "penalty", "liquidated damages", "service levels",
     "client", "supplier"].map String.toList),
   ("lease_agreement".toList,
    ["lease", "rent", "landlord", "tenant", "premises", "security deposit",
     "maintenance", "possession", "eviction", "utility", "lock-in",
     "renewal", "rent escalation", "fit-out",
     "termination of lease"].map String.toList),
   ("partnership_deed".toList,
    ["partnership", "partner", "profit sharing", "capital contribution",
     "drawings", "firm", "partnership deed", "dissolution", "accounts",
     "admission of partner", "retirement",
     "indemnify partners"].map String.toList),
   ("service_contract".toList,
    ["services", "statement of work", "sow", "scope of work", "deliverables",
     "milestone", "sla", "support", "maintenance", "professional services",
     "fees", "payment terms", "termination",
     "confidentiality"].map String.toList)]

/-- `STRONG_PATTERNS` (src/nlp/contract_type.py): category, compiled
    matcher, boost, regex source text (used in the evidence string). -/
def STRONG_PATTERNS :
    List ((List Char) × (List Char → Bool) × ℕ × (List Char)) :=
  [("employment_agreement".toList,
    searchAlts [wb "offer letter", wb "appointment letter",
                wb "employment agreement"], 6,
    "\\b(offer letter|appointment letter|employment agreement)\\b".toList),
   ("lease_agreement".toList,
    searchAlts [wb "lease agreement", wb "rent agreement", wb "lessor",
                wb "lessee"], 6,
    "\\b(lease agreement|rent agreement|lessor|lessee)\\b".toList),
   ("partnership_deed".toList,
    searchAlts [wb "partnership deed", wb "partner hereby agree",
                wb "partners hereby agree"], 6,
    "\\b(partnership deed|partners? hereby agree)\\b".toList),
   ("vendor_contract".toList,
    searchAlts [wb "purchase order", wb "supplier", wb "supply of goods"], 5,
    "\\b(purchase order|supplier|supply of goods)\\b".toList),
   ("service_contract".toList,
    searchAlts [wb "statement of work", wb "scope of services",
                wb "service agreement"], 5,
    "\\b(statement of work|scope of services|service agreement)\\b".toList)]

/-- `_token_score`: count of bucket tokens occurring (case-insensitively,
    plain substring) in the text. -/
def token_score (text : List Char) (toks : List (List Char)) : ℕ :=
  (toks.filter (fun tok => containsSub (lowerL text) (lowerL tok))).length

/-- Strong-pattern boost accumulated for one category. -/
def strong_boost (text : List Char) (ctype : List Char) : ℕ :=
  STRONG_PATTERNS.foldl
    (fun acc p => if p.1 = ctype ∧ p.2.1 text then acc + p.2.2.1 else acc) 0

/-- The `scores` dict as an association list in `RULE_SETS` key order. -/
def scores_list (text : List Char) : List ((List Char) × ℕ) :=
  RULE_SETS.map (fun kv => (kv.1, strong_boost text kv.1 + token_score text kv.2))

/-- `sorted(scores.items(), key=lambda x: x[1], reverse=True)` as its
    stable comparison relation. -/
def scoreGE (a b : (List Char) × ℕ) : Prop := b.2 ≤ a.2

instance : DecidableRel scoreGE := fun a b => by
  unfold scoreGE; infer_instance

instance : IsTotal ((List Char) × ℕ) scoreGE :=
  ⟨by intro a b; unfold scoreGE; omega⟩

instance : IsTrans ((List Char) × ℕ) scoreGE :=
  ⟨by intro a b c; unfold scoreGE; omega⟩

def ranked_scores (text : List Char) : List ((List Char) × ℕ) :=
  (scores_list text).insertionSort scoreGE

/-- `ranked[0]` (the list is never empty: `RULE_SETS` has five entries, so
    the `headD` default is unreachable). -/
def best_pair (text : List Char) : (List Char) × ℕ :=
  (ranked_scores text).headD ("unknown".toList, 0)

def best_score (text : List Char) : ℕ := (best_pair text).2

/-- `ranked[1][1] if len(ranked) > 1 else 0`. -/
def second_score (text : List Char) : ℕ :=
  (((ranked_scores text).tail.head?).map Prod.snd).getD 0

/-- The confidence heuristic of `_rules_classify` (before the final
    2-decimal rounding). -/
def rule_confidence (bs second : ℕ) : ℚ :=
  if bs ≤ 1 then 3 / 10
  else min (95 / 100) (45 / 100 + (bs : ℚ) / 20 + ((bs - second : ℕ) : ℚ) / 10)

/-- Evidence strings collected for one category (strong-pattern entries,
    then up to five keyword hits). -/
def evidence_for (text : List Char) (ctype : List Char) : List (List Char) :=
  (STRONG_PATTERNS.foldl
    (fun acc p =>
      if p.1 = ctype ∧ p.2.1 text then acc ++ ["pattern:".toList ++ p.2.2.2]
      else acc) []) ++
  ((RULE_SETS.foldl
     (fun acc kv =>
       if kv.1 = ctype ∧ 0 < token_score text kv.2 then
         acc ++ ((kv.2.filter
           (fun tok => containsSub (lowerL text) (lowerL tok))).take 5).map
             (fun tok => "kw:".toList ++ tok)
       else acc) []))

structure ContractTypeResult where
  contract_type : List Char
  confidence : ℚ
  method : List Char
  evidence : List (List Char)
deriving DecidableEq, Repr

/-- `_rules_classify` (src/nlp/contract_type.py). -/
def rules_classify (text : List Char) : ContractTypeResult :=
  ⟨(best_pair text).1,
   pyRound2 (rule_confidence (best_score text) (second_score text)),
   "rules".toList,
   (evidence_for text (best_pair text).1).take 6⟩

/-- `classify_contract_type` (src/nlp/contract_type.py), with the result
    of the `_llm_classify` call — external I/O — passed as a parameter. -/
def classify_contract_type (llm_res : ContractTypeResult) (text : List Char)
    (llm_fallback_threshold : ℚ) : ContractTypeResult :=
  let rules_res := rules_classify text
  if llm_fallback_threshold ≤ rules_res.confidence then rules_res
  else if llm_res.contract_type = "unknown".toList ∧
          rules_res.contract_type ≠ "unknown".toList then rules_res
  else llm_res

example : best_score "zzz".toList = 0 := by decide

example :
    (rules_classify
      "employment agreement offer letter for the employee: salary and probation".toList).contract_type
      = "employment_agreement".toList := by decide

theorem pyRound2_natCast_div (n : ℕ) :
    pyRound2 ((n : ℚ) / 100) = (n : ℚ) / 100 := by
  have h := pyRound2_cent (n : ℤ)
  push_cast at h
  exact h

theorem rules_classify_demo_confidence :
    (rules_classify
      "employment agreement offer letter for the employee: salary and probation".toList).confidence
      = 95 / 100 := by
  show pyRound2 (rule_confidence
    (best_score "employment agreement offer letter for the employee: salary and probation".toList)
    (second_score "employment agreement offer letter for the employee: salary and probation".toList))
    = 95 / 100
  have hb : best_score
      "employment agreement offer letter for the employee: salary and probation".toList = 11 := by
    decide
  have hs : second_score
      "employment agreement offer letter for the employee: salary and probation".toList = 0 := by
    decide
  rw [hb, hs]
  have hconf : rule_confidence 11 0 = 95 / 100 := by
    rw [rule_confidence]
    norm_num [min_def]
  rw [hconf]
  have h := pyRound2_natCast_div 95
  have h95 : ((95 : ℕ) : ℚ) = 95 := by norm_num
  rw [h95] at h
  exact h

/-- The low-signal floor of `_rules_classify` (shared helper). -/
theorem rules_conf_floor_aux (text : List Char) (h : best_score text ≤ 1) :
    (rules_classify text).confidence = 3 / 10 := by
  show pyRound2 (rule_confidence (best_score text) (second_score text)) = 3 / 10
  rw [rule_confidence, if_pos h]
  have hcast := pyRound2_natCast_div 30
  have h30 : ((30 : ℕ) : ℚ) / 100 = 3 / 10 := by norm_num
  rw [h30] at hcast
  exact hcast

/-- C6: if the rule-phase best category score is at most 1, the rule-phase
    confidence is exactly 0.30, regardless of which category won. -/
theorem c6_confidence_floor (text : List Char) (h : best_score text ≤ 1) :
    (rules_classify text).confidence = 3 / 10 :=
  rules_conf_floor_aux text h

/-- Witness for `c6_confidence_floor`. -/
theorem c6_confidence_floor_witness :
    best_score "zzz".toList ≤ 1 ∧
    (rules_classify "zzz".toList).confidence = 3 / 10 :=
  ⟨by decide, c6_confidence_floor "zzz".toList (by decide)⟩

/-- When the best score clears the floor, the rounded confidence is the
    exact cent value `min 95 (45 + 5·best + 10·(best − second)) / 100`. -/
theorem rule_confidence_cent (bs s : ℕ) (hbs : 1 < bs) (hsb : s ≤ bs) :
    pyRound2 (rule_confidence bs s) =
      ((min 95 (45 + 5 * bs + 10 * (bs - s)) : ℕ) : ℚ) / 100 := by
  have hval : rule_confidence bs s =
      ((min 95 (45 + 5 * bs + 10 * (bs - s)) : ℕ) : ℚ) / 100 := by
    rw [rule_confidence, if_neg (by omega)]
    rw [Nat.cast_min]
    rw [← min_div_div_right (by norm_num : (0 : ℚ) ≤ 100)]
    congr 1
    all_goals push_cast [Nat.cast_sub hsb]
    all_goals ring
  rw [hval, pyRound2_natCast_div]

/-- C7: with the best score fixed above the floor, increasing the margin
    between best and second-best score never decreases the computed
    confidence `min(0.95, 0.45 + best/20 + (best − second)/10)` (the final
    2-decimal rounding is the identity on these values). -/
theorem c7_margin_monotone (bs s1 s2 : ℕ) (hbs : 1 < bs) (h21 : s2 ≤ s1)
    (h1b : s1 ≤ bs) :
    pyRound2 (rule_confidence bs s1) ≤ pyRound2 (rule_confidence bs s2) := by
  rw [rule_confidence_cent bs s1 hbs h1b,
      rule_confidence_cent bs s2 hbs (le_trans h21 h1b)]
  have hmono : min 95 (45 + 5 * bs + 10 * (bs - s1)) ≤
      min 95 (45 + 5 * bs + 10 * (bs - s2)) := by omega
  gcongr

/-- Witness for `c7_margin_monotone`. -/
theorem c7_margin_monotone_witness :
    1 < 5 ∧ (1 : ℕ) ≤ 2 ∧ 2 ≤ 5 ∧
    pyRound2 (rule_confidence 5 2) ≤ pyRound2 (rule_confidence 5 1) :=
  ⟨by decide, by decide, by decide,
   c7_margin_monotone 5 2 1 (by decide) (by decide) (by decide)⟩

theorem ranked_scores_ne_nil (text : List Char) :
    ranked_scores text ≠ [] := by
  intro h
  have hperm := List.perm_insertionSort scoreGE (scores_list text)
  have hlen := hperm.length_eq
  rw [ranked_scores] at h
  rw [h] at hlen
  simp [scores_list, RULE_SETS] at hlen

/-- The winning pair is one of the five scored categories (shared helper). -/
theorem best_pair_mem (text : List Char) :
    best_pair text ∈ scores_list text := by
  have hperm := List.perm_insertionSort scoreGE (scores_list text)
  obtain ⟨hd, tl, hcons⟩ := List.exists_cons_of_ne_nil (ranked_scores_ne_nil text)
  have hbp : best_pair text = hd := by
    rw [best_pair, hcons]
    rfl
  rw [hbp]
  refine hperm.mem_iff.mp ?_
  rw [ranked_scores] at hcons
  rw [hcons]
  exact List.mem_cons_self hd tl

/-- The rule phase can only emit one of the five concrete categories
    (shared helper). -/
theorem rules_classify_type_mem (text : List Char) :
    (rules_classify text).contract_type ∈ RULE_SETS.map Prod.fst := by
  have hmem := best_pair_mem text
  have : (best_pair text).1 ∈ (scores_list text).map Prod.fst :=
    List.mem_map_of_mem Prod.fst hmem
  have hmapeq : (scores_list text).map Prod.fst = RULE_SETS.map Prod.fst := by
    rw [scores_list, List.map_map]
    rfl
  rw [hmapeq] at this
  exact this

theorem rules_classify_type_ne_unknown (text : List Char) :
    (rules_classify text).contract_type ≠ "unknown".toList := by
  have hmem := rules_classify_type_mem text
  have hall : ∀ x ∈ RULE_SETS.map Prod.fst, x ≠ "unknown".toList := by decide
  exact hall _ hmem

/-- C10: the rule phase scores and ranks only the five concrete contract
    type categories, so its label is always one of them — never `unknown`
    — and its method tag is `rules`. -/
theorem c10_rules_label (text : List Char) :
    (rules_classify text).contract_type ∈ RULE_SETS.map Prod.fst ∧
    (rules_classify text).contract_type ≠ "unknown".toList ∧
    (rules_classify text).method = "rules".toList :=
  ⟨rules_classify_type_mem text, rules_classify_type_ne_unknown text, rfl⟩

/-- C4: at or above the 0.55 threshold the classifier returns the
    rule-phase result and is independent of the external service's answer;
    below the threshold it returns the external result unless that is
    `unknown` while the rule phase is not, in which case the rule-phase
    result is kept — an external `unknown` never displaces a non-unknown
    rule result. -/
theorem c4_classifier_fallback (text : List Char)
    (llm_res llm_res2 : ContractTypeResult) :
    ((55 / 100 : ℚ) ≤ (rules_classify text).confidence →
      classify_contract_type llm_res text (55 / 100) = rules_classify text ∧
      classify_contract_type llm_res text (55 / 100) =
        classify_contract_type llm_res2 text (55 / 100)) ∧
    ((rules_classify text).confidence < 55 / 100 →
      classify_contract_type llm_res text (55 / 100) =
        if llm_res.contract_type = "unknown".toList ∧
           (rules_classify text).contract_type ≠ "unknown".toList
        then rules_classify text else llm_res) ∧
    ((rules_classify text).confidence < 55 / 100 →
      llm_res.contract_type = "unknown".toList →
      classify_contract_type llm_res text (55 / 100) = rules_classify text) := by
  refine ⟨?_, ?_, ?_⟩
  · intro h
    constructor
    · simp only [classify_contract_type]
      rw [if_pos h]
    · simp only [classify_contract_type]
      rw [if_pos h, if_pos h]
  · intro h
    simp only [classify_contract_type]
    rw [if_neg (not_le.mpr h)]
  · intro h hunk
    simp only [classify_contract_type]
    rw [if_neg (not_le.mpr h),
        if_pos ⟨hunk, rules_classify_type_ne_unknown text⟩]

/-- Witness for `c4_classifier_fallback`: both threshold branches at
    concrete inputs. -/
theorem c4_classifier_fallback_witness :
    ((55 / 100 : ℚ) ≤
        (rules_classify
          "employment agreement offer letter for the employee: salary and probation".toList).confidence ∧
      classify_contract_type ⟨"vendor_contract".toList, 8 / 10, "llm".toList, []⟩
        "employment agreement offer letter for the employee: salary and probation".toList
        (55 / 100) =
        rules_classify
          "employment agreement offer letter for the employee: salary and probation".toList) ∧
    ((rules_classify "zzz".toList).confidence < 55 / 100 ∧
      classify_contract_type ⟨"unknown".toList, 0, "llm".toList, []⟩
        "zzz".toList (55 / 100) = rules_classify "zzz".toList) := by
  have hge : (55 / 100 : ℚ) ≤
      (rules_classify
        "employment agreement offer letter for the employee: salary and probation".toList).confidence := by
    rw [rules_classify_demo_confidence]
    norm_num
  have hlt : (rules_classify "zzz".toList).confidence < 55 / 100 := by
    rw [rules_conf_floor_aux "zzz".toList (by decide)]
    norm_num
  exact ⟨⟨hge,
    ((c4_classifier_fallback
      "employment agreement offer letter for the employee: salary and probation".toList
      ⟨"vendor_contract".toList, 8 / 10, "llm".toList, []⟩
      ⟨"vendor_contract".toList, 8 / 10, "llm".toList, []⟩).1 hge).1⟩,
   ⟨hlt,
    (c4_classifier_fallback "zzz".toList
      ⟨"unknown".toList, 0, "llm".toList, []⟩
      ⟨"unknown".toList, 0, "llm".toList, []⟩).2.2 hlt rfl⟩⟩

/-! ## Risk aggregator (src/risk/aggregator.py).

    The whole-document red-flag scan `detect_red_flags`
    (src/risk/patterns.py) is passed as a parameter: no claim depends on
    its internals, only on where its output is placed. -/

structure ClauseAnalysis where
  clause_id : List Char
  clause_text : List Char
  clause_type : List Char
  risk_level : List Char
  risk_reason : List Char
deriving DecidableEq, Repr

structure RedFlag where
  flag_type : List Char
  severity : List Char
  reason : List Char
deriving DecidableEq, Repr

structure TopHighRisk where
  clause_id : List Char
  clause_type : List Char
  risk_reason : List Char
  text_preview : List Char
deriving DecidableEq, Repr

/-- `_risk_to_score` (src/risk/aggregator.py). -/
def risk_to_score (risk : List Char) : ℕ :=
  if risk = "High".toList then 3
  else if risk = "Medium".toList then 2
  else if risk = "Low".toList then 1
  else 1

/-- `_score_to_overall` (src/risk/aggregator.py). -/
def score_to_overall (avg_score : ℚ) : List Char :=
  if 23 / 10 ≤ avg_score then "High".toList
  else if 17 / 10 ≤ avg_score then "Medium".toList
  else "Low".toList

/-- The 220-character preview with flattened newlines. -/
def text_preview (t : List Char) : List Char :=
  if 220 < t.length then
    (t.take 220).map (fun c => if c == '\n' then ' ' else c) ++ "...".toList
  else t

/-- `counts` dict modelled as a function from risk-level key to count
    (initially 0 everywhere — the literal dict has exactly the four
    standard keys at 0 and `counts.get(k, 0)` defaults the rest). -/
structure ContractSummary where
  overall_risk : List Char
  avg_score : ℚ
  counts : List Char → ℕ
  top_high_risk : List TopHighRisk
  red_flags : List RedFlag

/-- `aggregate_contract` (src/risk/aggregator.py). -/
def aggregate_contract (detect_red_flags : List Char → List RedFlag)
    (clauses : List ClauseAnalysis) : ContractSummary :=
  if clauses = [] then
    ⟨"Unclear".toList, 0, fun _ => 0, [], []⟩
  else
    let counts := clauses.foldl
      (fun cnt c k => if k = c.risk_level then cnt k + 1 else cnt k)
      (fun _ => 0)
    let total := (clauses.map (fun c => risk_to_score c.risk_level)).sum
    let avg : ℚ := (total : ℚ) / (max clauses.length 1 : ℕ)
    let high_risk := (clauses.filter (fun c => c.risk_level = "High".toList)).take 8
    let full_text := List.intercalate ['\n'] (clauses.map ClauseAnalysis.clause_text)
    ⟨score_to_overall avg, pyRound2 avg, counts,
     high_risk.map (fun c =>
       ⟨c.clause_id, c.clause_type, c.risk_reason, text_preview c.clause_text⟩),
     detect_red_flags full_text⟩

/-- C9: aggregating an empty clause list yields a structurally valid
    summary — overall `Unclear`, average 0.0, all four counts 0, empty
    red-flag and top-high-risk lists — for any red-flag scanner, and (the
    embedding being total) never an error. -/
theorem c9_aggregate_empty (detect_red_flags : List Char → List RedFlag) :
    (aggregate_contract detect_red_flags []).overall_risk = "Unclear".toList ∧
    (aggregate_contract detect_red_flags []).avg_score = 0 ∧
    (aggregate_contract detect_red_flags []).counts "High".toList = 0 ∧
    (aggregate_contract detect_red_flags []).counts "Medium".toList = 0 ∧
    (aggregate_contract detect_red_flags []).counts "Low".toList = 0 ∧
    (aggregate_contract detect_red_flags []).counts "Unclear".toList = 0 ∧
    (aggregate_contract detect_red_flags []).top_high_risk = [] ∧
    (aggregate_contract detect_red_flags []).red_flags = [] :=
  ⟨rfl, rfl, rfl, rfl, rfl, rfl, rfl, rfl⟩

/-- C3: for non-empty input the aggregator's overall bucket is
    `score_to_overall` of the exact average of the per-clause weights
    (High=3, Medium=2, Low=1, anything else — including Unclear — 1), the
    reported `avg_score` is that average rounded to 2 decimals, the bucket
    thresholds behave as specified on the boundary values 2.3, 2.29999,
    1.7 and 1.69999, and the overall bucket is never `Unclear`. -/
theorem c3_aggregation_buckets (detect_red_flags : List Char → List RedFlag)
    (clauses : List ClauseAnalysis) (h : clauses ≠ []) :
    ((aggregate_contract detect_red_flags clauses).overall_risk =
      score_to_overall
        (((clauses.map (fun c => risk_to_score c.risk_level)).sum : ℚ) /
          clauses.length)) ∧
    ((aggregate_contract detect_red_flags clauses).avg_score =
      pyRound2
        (((clauses.map (fun c => risk_to_score c.risk_level)).sum : ℚ) /
          clauses.length)) ∧
    (risk_to_score "High".toList = 3 ∧ risk_to_score "Medium".toList = 2 ∧
     risk_to_score "Low".toList = 1 ∧ risk_to_score "Unclear".toList = 1) ∧
    (∀ q : ℚ, 23 / 10 ≤ q → score_to_overall q = "High".toList) ∧
    (∀ q : ℚ, 17 / 10 ≤ q → q < 23 / 10 → score_to_overall q = "Medium".toList) ∧
    (∀ q : ℚ, q < 17 / 10 → score_to_overall q = "Low".toList) ∧
    (score_to_overall (23 / 10) = "High".toList ∧
     score_to_overall (229999 / 100000) = "Medium".toList ∧
     score_to_overall (17 / 10) = "Medium".toList ∧
     score_to_overall (169999 / 100000) = "Low".toList) ∧
    (aggregate_contract detect_red_flags clauses).overall_risk ≠
      "Unclear".toList := by
  have hlen : max clauses.length 1 = clauses.length := by
    have : clauses.length ≠ 0 := fun h0 => h (List.length_eq_zero.mp h0)
    omega
  have hhigh : ∀ q : ℚ, 23 / 10 ≤ q → score_to_overall q = "High".toList := by
    intro q hq
    rw [score_to_overall, if_pos hq]
  have hmed : ∀ q : ℚ, 17 / 10 ≤ q → q < 23 / 10 →
      score_to_overall q = "Medium".toList := by
    intro q hq1 hq2
    rw [score_to_overall, if_neg (not_le.mpr hq2), if_pos hq1]
  have hlow : ∀ q : ℚ, q < 17 / 10 → score_to_overall q = "Low".toList := by
    intro q hq
    rw [score_to_overall, if_neg (not_le.mpr (lt_trans hq (by norm_num))),
        if_neg (not_le.mpr hq)]
  have hne : ∀ q : ℚ, score_to_overall q ≠ "Unclear".toList := by
    intro q
    rw [score_to_overall]
    split_ifs
    · decide
    · decide
    · decide
  have hover : (aggregate_contract detect_red_flags clauses).overall_risk =
      score_to_overall
        (((clauses.map (fun c => risk_to_score c.risk_level)).sum : ℚ) /
          clauses.length) := by
    simp only [aggregate_contract, if_neg h]
    rw [hlen]
  have havg : (aggregate_contract detect_red_flags clauses).avg_score =
      pyRound2
        (((clauses.map (fun c => risk_to_score c.risk_level)).sum : ℚ) /
          clauses.length) := by
    simp only [aggregate_contract, if_neg h]
    rw [hlen]
  refine ⟨hover, havg, ⟨rfl, rfl, rfl, rfl⟩, hhigh, hmed, hlow,
    ⟨?_, ?_, ?_, ?_⟩, ?_⟩
  · exact hhigh _ (by norm_num)
  · exact hmed _ (by norm_num) (by norm_num)
  · exact hmed _ (by norm_num) (by norm_num)
  · exact hlow _ (by norm_num)
  · rw [hover]
    exact hne _

/-- Witness for `c3_aggregation_buckets` on a concrete two-clause input. -/
theorem c3_aggregation_buckets_witness :
    ([(⟨"C001".toList, "t1".toList, "ty".toList, "High".toList, "r".toList⟩ :
        ClauseAnalysis),
      ⟨"C002".toList, "t2".toList, "ty".toList, "Low".toList, "r".toList⟩] ≠
        []) ∧
    (aggregate_contract (fun _ => [])
      [⟨"C001".toList, "t1".toList, "ty".toList, "High".toList, "r".toList⟩,
       ⟨"C002".toList, "t2".toList, "ty".toList, "Low".toList, "r".toList⟩]).overall_risk
      = score_to_overall
          ((([(⟨"C001".toList, "t1".toList, "ty".toList, "High".toList, "r".toList⟩ :
              ClauseAnalysis),
             ⟨"C002".toList, "t2".toList, "ty".toList, "Low".toList, "r".toList⟩].map
              (fun c => risk_to_score c.risk_level)).sum : ℚ) / 2) :=
  ⟨by decide,
   (c3_aggregation_buckets (fun _ => [])
     [⟨"C001".toList, "t1".toList, "ty".toList, "High".toList, "r".toList⟩,
      ⟨"C002".toList, "t2".toList, "ty".toList, "Low".toList, "r".toList⟩]
     (by decide)).1⟩

/-! ## `_llm_classify` response handling (src/nlp/contract_type.py lines
    122-209).

    The HTTP call itself (`requests.post` / `raise_for_status`) is external
    I/O outside the embedding; what is modelled is the handling of the
    returned message content: fence stripping, JSON-object extraction and
    the defensive coercion of the parsed fields.  `json.loads` (Python
    stdlib) is passed as an oracle `loads`; a parsed JSON object is a
    `PyDict` giving the values (if any) at the three accessed keys.  A
    string value carries the result of Python `float()` on it; the `str()`
    rendering of non-string evidence items is abstracted to `[]` (no claim
    depends on it). -/

inductive PyVal where
  | pstr (s : List Char) (asFloat : Option ℚ)
  | pnum (q : ℚ)
  | plist (elems : List PyVal)
  | pother

structure PyDict where
  contract_type : Option PyVal
  confidence : Option PyVal
  evidence : Option PyVal

/-- Python `float(v)`: `none` means it raises. -/
def pyFloat : PyVal → Option ℚ
  | .pstr _ f => f
  | .pnum q => some q
  | .plist _ => none
  | .pother => none

def pyToStr : PyVal → List Char
  | .pstr s _ => s
  | _ => []

/-- One leading-fence removal (`re.sub(r"^\s*MARKER\s*", "", txt)`). -/
def strip_fence_at_start (marker : List Char) (ci : Bool) (l : List Char) :
    List Char :=
  let rest := l.dropWhile isWs
  let pre := rest.take marker.length
  if (if ci then lowerL pre = lowerL marker else pre = marker) then
    (rest.drop marker.length).dropWhile isWs
  else l

/-- Trailing-fence removal (`re.sub(r"\s*MARKER\s*$", "", txt)`). -/
def strip_fence_at_end (marker : List Char) (l : List Char) : List Char :=
  let r := l.reverse
  let rest := r.dropWhile isWs
  let pre := rest.take marker.length
  if pre = marker.reverse then
    ((rest.drop marker.length).dropWhile isWs).reverse
  else l

/-- `_strip_code_fences` (src/nlp/contract_type.py). -/
def strip_code_fences (l : List Char) : List Char :=
  let t0 := pyStrip l
  let t1 := strip_fence_at_start "```json".toList true t0
  let t2 := strip_fence_at_start "```".toList false t1
  pyStrip (strip_fence_at_end "```".toList t2)

def find_char (t : List Char) (c : Char) : Option ℕ :=
  (List.range t.length).find? (fun i => chAt t i == some c)

def rfind_char (t : List Char) (c : Char) : Option ℕ :=
  ((List.range t.length).reverse).find? (fun i => chAt t i == some c)

/-- `_extract_json_object` (src/nlp/contract_type.py). -/
def extract_json_object (text : List Char) : List Char :=
  let t := pyStrip text
  match find_char t '\x7b', rfind_char t '\x7d' with
  | some s, some e => if e ≤ s then [] else pyStrip (slice t s (e + 1))
  | some _, none => []
  | none, _ => []

/-- `ctype = data.get("contract_type", "unknown")` followed by the
    vocabulary check (a non-string value is never in the vocabulary). -/
def coerce_ctype (d : PyDict) : List Char :=
  match d.contract_type with
  | some (PyVal.pstr s _) => if s ∈ CONTRACT_TYPES then s else "unknown".toList
  | some _ => "unknown".toList
  | none => "unknown".toList

/-- `conf = data.get("confidence", 0.0)` with `float()` coercion, raising
    replaced by `0.0`. -/
def coerce_conf (d : PyDict) : ℚ :=
  match d.confidence with
  | none => 0
  | some v =>
    match pyFloat v with
    | some q => q
    | none => 0

/-- `ev = data.get("evidence", [])`, non-lists dropped, `str`-rendered,
    capped at 6. -/
def coerce_ev (d : PyDict) : List (List Char) :=
  match d.evidence with
  | some (PyVal.plist l) => (l.map pyToStr).take 6
  | some (PyVal.pstr _ _) => []
  | some (PyVal.pnum _) => []
  | some PyVal.pother => []
  | none => []

/-- `_llm_classify` after the HTTP response is in hand. -/
def llm_classify_parse (raw : List Char)
    (loads : List Char → Option PyDict) : ContractTypeResult :=
  let blob := extract_json_object (strip_code_fences raw)
  if blob = [] then
    ⟨"unknown".toList, 0, "llm".toList, ["llm:no_json".toList]⟩
  else
    match loads blob with
    | none => ⟨"unknown".toList, 0, "llm".toList, ["llm:bad_json".toList]⟩
    | some data =>
      ⟨coerce_ctype data, pyRound2 (max 0 (min 1 (coerce_conf data))),
       "llm".toList, coerce_ev data⟩

theorem coerce_ctype_mem (d : PyDict) : coerce_ctype d ∈ CONTRACT_TYPES := by
  rw [coerce_ctype]
  have hunk : "unknown".toList ∈ CONTRACT_TYPES := by decide
  match d.contract_type with
  | some (PyVal.pstr s f) =>
    by_cases hs : s ∈ CONTRACT_TYPES
    · simp only [if_pos hs]
      exact hs
    · simp only [if_neg hs]
      exact hunk
  | some (PyVal.pnum q) => exact hunk
  | some (PyVal.plist l) => exact hunk
  | some PyVal.pother => exact hunk
  | none => exact hunk

/-- C8, amended: the response handler never raises (it is total), always
    tags the result with the external-fallback method and a label from the
    fixed vocabulary; a response with no JSON object or with invalid JSON
    degrades to `unknown` with confidence 0; in a parsed object an
    out-of-vocabulary label is coerced to `unknown` while keeping the
    clamped numeric confidence, and a non-numeric confidence is coerced to
    0 while keeping the (coerced) label. -/
theorem c8_llm_fallback_degradation (raw : List Char)
    (loads : List Char → Option PyDict) :
    ((llm_classify_parse raw loads).method = "llm".toList) ∧
    ((llm_classify_parse raw loads).contract_type ∈ CONTRACT_TYPES) ∧
    (extract_json_object (strip_code_fences raw) = [] →
      llm_classify_parse raw loads =
        ⟨"unknown".toList, 0, "llm".toList, ["llm:no_json".toList]⟩) ∧
    (extract_json_object (strip_code_fences raw) ≠ [] →
      loads (extract_json_object (strip_code_fences raw)) = none →
      llm_classify_parse raw loads =
        ⟨"unknown".toList, 0, "llm".toList, ["llm:bad_json".toList]⟩) ∧
    (∀ d, extract_json_object (strip_code_fences raw) ≠ [] →
      loads (extract_json_object (strip_code_fences raw)) = some d →
      llm_classify_parse raw loads =
        ⟨coerce_ctype d, pyRound2 (max 0 (min 1 (coerce_conf d))),
         "llm".toList, coerce_ev d⟩ ∧
      (∀ s f, d.contract_type = some (PyVal.pstr s f) → s ∉ CONTRACT_TYPES →
        (llm_classify_parse raw loads).contract_type = "unknown".toList) ∧
      (∀ v, d.confidence = some v → pyFloat v = none →
        (llm_classify_parse raw loads).confidence = 0)) := by
  have hzero : pyRound2 (max 0 (min 1 (0 : ℚ))) = 0 := by
    have h0 : max (0 : ℚ) (min 1 0) = 0 := by norm_num
    rw [h0]
    have := pyRound2_cent 0
    norm_num at this
    exact this
  by_cases hb : extract_json_object (strip_code_fences raw) = []
  · have hred : llm_classify_parse raw loads =
        ⟨"unknown".toList, 0, "llm".toList, ["llm:no_json".toList]⟩ := by
      simp only [llm_classify_parse]
      rw [if_pos hb]
    refine ⟨by rw [hred], by rw [hred]; decide, fun _ => hred, ?_, ?_⟩
    · intro hne
      exact absurd hb hne
    · intro d hne
      exact absurd hb hne
  · cases hl : loads (extract_json_object (strip_code_fences raw)) with
    | none =>
      have hred : llm_classify_parse raw loads =
          ⟨"unknown".toList, 0, "llm".toList, ["llm:bad_json".toList]⟩ := by
        simp only [llm_classify_parse]
        rw [if_neg hb, hl]
      refine ⟨by rw [hred], by rw [hred]; decide, fun h => absurd h hb,
        fun _ _ => hred, ?_⟩
      intro d _ hd
      exact absurd hd (by simp)
    | some data =>
      have hred : llm_classify_parse raw loads =
          ⟨coerce_ctype data, pyRound2 (max 0 (min 1 (coerce_conf data))),
           "llm".toList, coerce_ev data⟩ := by
        simp only [llm_classify_parse]
        rw [if_neg hb, hl]
      refine ⟨by rw [hred], ?_, fun h => absurd h hb, ?_, ?_⟩
      · rw [hred]
        exact coerce_ctype_mem data
      · intro _ hnone
        exact absurd hnone (by simp)
      · intro d _ hd
        have hdd : data = d := by
          injection hd
        subst hdd
        refine ⟨hred, ?_, ?_⟩
        · intro s f hct hs
          rw [hred]
          show coerce_ctype data = "unknown".toList
          rw [coerce_ctype, hct]
          simp only [if_neg hs]
        · intro v hcv hfl
          rw [hred]
          show pyRound2 (max 0 (min 1 (coerce_conf data))) = 0
          rw [coerce_conf, hcv]
          simp only [hfl]
          exact hzero

/-- Witness for `c8_llm_fallback_degradation`: the no-JSON and bad-JSON
    branches at concrete inputs. -/
theorem c8_llm_fallback_degradation_witness :
    (extract_json_object (strip_code_fences "no json here".toList) = [] ∧
      llm_classify_parse "no json here".toList (fun _ => none) =
        ⟨"unknown".toList, 0, "llm".toList, ["llm:no_json".toList]⟩) ∧
    (extract_json_object (strip_code_fences "\x7bnot json\x7d".toList) ≠ [] ∧
      llm_classify_parse "\x7bnot json\x7d".toList (fun _ => none) =
        ⟨"unknown".toList, 0, "llm".toList, ["llm:bad_json".toList]⟩) :=
  ⟨⟨by decide,
    (c8_llm_fallback_degradation "no json here".toList (fun _ => none)).2.2.1
      (by decide)⟩,
   ⟨by decide,
    (c8_llm_fallback_degradation "\x7bnot json\x7d".toList (fun _ => none)).2.2.2.1
      (by decide) rfl⟩⟩

def demo_raw : List Char :=
  "\x7b\"contract_type\": \"garbage\", \"confidence\": 0.9\x7d".toList

def demo_dict : PyDict :=
  ⟨some (PyVal.pstr "garbage".toList none), some (PyVal.pnum (9 / 10)), none⟩

/-- `json.loads` modelled at the single probed input: on
    `{"contract_type": "garbage", "confidence": 0.9}` Python's parser
    returns exactly the dict `demo_dict`. -/
def demo_loads (s : List Char) : Option PyDict :=
  if s = demo_raw then some demo_dict else none

/-- C8 counterexample: a malformed response whose label is out of the
    vocabulary is coerced to `unknown` but keeps its confidence 0.9 — the
    claim's "with confidence 0" is false for this malformed-response
    class. -/
theorem c8_counterexample :
    (∃ s f, demo_dict.contract_type = some (PyVal.pstr s f) ∧
      s ∉ CONTRACT_TYPES) ∧
    (llm_classify_parse demo_raw demo_loads).contract_type =
      "unknown".toList ∧
    (llm_classify_parse demo_raw demo_loads).confidence = 9 / 10 ∧
    (llm_classify_parse demo_raw demo_loads).confidence ≠ 0 := by
  have hred : llm_classify_parse demo_raw demo_loads =
      ⟨"unknown".toList, pyRound2 (max 0 (min 1 (9 / 10))), "llm".toList,
       []⟩ := rfl
  have hconf : pyRound2 (max 0 (min 1 ((9 : ℚ) / 10))) = 9 / 10 := by
    have h1 : max (0 : ℚ) (min 1 (9 / 10)) = 9 / 10 := by norm_num
    rw [h1]
    have h := pyRound2_natCast_div 90
    norm_num at h
    exact h
  refine ⟨⟨"garbage".toList, none, rfl, by decide⟩, by rw [hred], ?_, ?_⟩
  · rw [hred]
    exact hconf
  · rw [hred]
    show pyRound2 (max 0 (min 1 ((9 : ℚ) / 10))) ≠ 0
    rw [hconf]
    norm_num

end ContractRiskBot
